import Mathlib

/-!
Verification of the persona-driven document ranking pipeline
(`utils/text_extractor.py`, `utils/ranker.py`).

The Python code is shallowly embedded: strings become `List Char`,
floats become exact rationals `ℚ`, the `re` module calls become a small
backtracking regular-expression engine (`RE`, `reMatch`) that mirrors
Python's leftmost / greedy / first-alternative match order, and the
fixed regex literals of the source are compiled to `RE` values.  Python
dicts holding section data become structures.
-/

set_option maxHeartbeats 4000000
set_option maxRecDepth 8000

/-! ## Python string primitives -/

/-- Python whitespace for `str.strip` / `str.split` / `\s` (ASCII range). -/
def pySpace (c : Char) : Bool :=
  c = ' ' || c = '\t' || c = '\n' || c = '\r' || c = '\x0b' || c = '\x0c'

/-- Python `\w`: word character (ASCII range). -/
def isWordCh (c : Char) : Bool :=
  c.isAlpha || c.isDigit || c = '_'

/-- Python `str.lower` (ASCII range). -/
def pyLower (s : List Char) : List Char :=
  s.map Char.toLower

/-- Python `str.strip()` with no arguments. -/
def pyStrip (s : List Char) : List Char :=
  ((s.dropWhile pySpace).reverse.dropWhile pySpace).reverse

/-- Python substring test `needle in hay`. -/
def containsSub (needle : List Char) : List Char → Bool
  | [] => needle.isEmpty
  | c :: t => needle.isPrefixOf (c :: t) || containsSub needle t

/-- Python `str.split()` with no arguments: split on whitespace runs,
dropping empty pieces.  `acc` holds the current word reversed. -/
def pySplitWsAux : List Char → List Char → List (List Char)
  | [], acc => if acc.isEmpty then [] else [acc.reverse]
  | c :: t, acc =>
    if pySpace c then
      if acc.isEmpty then pySplitWsAux t [] else acc.reverse :: pySplitWsAux t []
    else pySplitWsAux t (c :: acc)

def pySplitWs (s : List Char) : List (List Char) :=
  pySplitWsAux s []

/-- Python `str.split(sep)` for a one-character separator. -/
def splitOnChar (sep : Char) : List Char → List (List Char)
  | [] => [[]]
  | c :: t =>
    if c = sep then [] :: splitOnChar sep t
    else
      match splitOnChar sep t with
      | [] => [[c]]
      | h :: r => (c :: h) :: r

/-- Python `str.split("\n\n")`: split on the two-character separator,
leftmost and non-overlapping. -/
def splitOnNl2 : List Char → List (List Char)
  | [] => [[]]
  | '\n' :: '\n' :: t => [] :: splitOnNl2 t
  | c :: t =>
    match splitOnNl2 t with
    | [] => [[c]]
    | h :: r => (c :: h) :: r

/-- Python `sep.join(parts)`. -/
def joinWith (sep : List Char) : List (List Char) → List Char
  | [] => []
  | [x] => x
  | x :: xs => x ++ sep ++ joinWith sep xs

/-- Python `s.startswith((p1, p2, ...))`. -/
def startsWithAny (s : List Char) (ps : List (List Char)) : Bool :=
  ps.any (fun p => p.isPrefixOf s)

/-- Python `str.rfind(c)`: index of the last occurrence, `-1` if absent. -/
def pyRFind (c : Char) (s : List Char) : Int :=
  match s.reverse.findIdx? (fun d => d == c) with
  | some k => (s.length : Int) - 1 - k
  | none => -1

def strs (l : List String) : List (List Char) :=
  l.map String.data

/-! ## A regex engine for the fixed patterns of the source

`reMatch fuel r prev s k` tries to match `r` at the start of `s`
(`prev` is the character just before `s`, for `\b`), and on each way of
consuming `n` characters leaving `rest` calls the continuation `k` on
`rest`; a successful outcome is `some (n + m)` where `m` is the
continuation's count.  Alternatives are tried left to right and `star`
is greedy, reproducing Python `re`'s backtracking order.  `fuel` bounds
the recursion depth; callers pass far more fuel than any of the fixed
patterns of the source can consume, so exhaustion never occurs for them. -/

inductive RE where
  | eps : RE
  | tok : (Char → Bool) → RE
  | cat : RE → RE → RE
  | alt : RE → RE → RE
  | star : RE → RE
  | bndry : RE
  | eol : RE

/-- `\b`: word-boundary test between `prev` and the head of `s`. -/
def wordBoundaryAt (prev : Option Char) (s : List Char) : Bool :=
  let pw := match prev with | some c => isWordCh c | none => false
  let nw := match s with | c :: _ => isWordCh c | [] => false
  pw != nw

def reMatch : Nat → RE → Option Char → List Char → (Option Char → List Char → Option Nat) → Option Nat
  | 0, _, _, _, _ => none
  | _ + 1, .eps, p, s, k => k p s
  | _ + 1, .tok f, _, s, k =>
    match s with
    | [] => none
    | c :: cs => if f c then (k (some c) cs).map (fun n => n + 1) else none
  | fuel + 1, .cat a b, p, s, k =>
    reMatch fuel a p s (fun q t => reMatch fuel b q t k)
  | fuel + 1, .alt a b, p, s, k =>
    (reMatch fuel a p s k).orElse (fun _ => reMatch fuel b p s k)
  | fuel + 1, .star a, p, s, k =>
    (reMatch fuel a p s (fun q t => reMatch fuel (.star a) q t k)).orElse (fun _ => k p s)
  | _ + 1, .bndry, p, s, k => if wordBoundaryAt p s then k p s else none
  | _ + 1, .eol, p, s, k => if s.isEmpty || s == ['\n'] then k p s else none

/-- Fuel ample for every fixed pattern of the source (recursion depth is
bounded by pattern size plus a small multiple of the input length). -/
def reFuel (s : List Char) : Nat :=
  8 * s.length + 4000

/-- Python `re.match(pattern, s)` viewed as a Bool (anchored at the start). -/
def pyMatchB (r : RE) (s : List Char) : Bool :=
  (reMatch (reFuel s) r none s (fun _ _ => some 0)).isSome

/-- Python `re.search`: try each start position left to right, return
the first (leftmost) match's text. -/
def reSearchFrom (r : RE) (p : Option Char) (s : List Char) : Option (List Char) :=
  match reMatch (reFuel s) r p s (fun _ _ => some 0) with
  | some n => some (s.take n)
  | none =>
    match s with
    | [] => none
    | c :: cs => reSearchFrom r (some c) cs

def reSearch (r : RE) (s : List Char) : Option (List Char) :=
  reSearchFrom r none s

/-- Python `re.findall` (for patterns without capture groups): scan left
to right, after each match continue right after it (advancing at least
one character). -/
def reFindAllGo (r : RE) : Nat → Option Char → List Char → List (List Char)
  | 0, _, _ => []
  | f + 1, p, s =>
    match reMatch (reFuel s) r p s (fun _ _ => some 0) with
    | some n =>
      let step := max n 1
      s.take n :: reFindAllGo r f ((s.take step).getLast?) (s.drop step)
    | none =>
      match s with
      | [] => []
      | c :: cs => reFindAllGo r f (some c) cs

def reFindAll (r : RE) (s : List Char) : List (List Char) :=
  reFindAllGo r (s.length + 1) none s

/-! ### RE building blocks -/

/-- Literal word: sequence of single-character tokens. -/
def rlits (w : String) : RE :=
  w.data.foldr (fun c r => RE.cat (RE.tok (fun d => d == c)) r) RE.eps

/-- Alternation list, tried left to right like Python `(?:a|b|c)`. -/
def raltL : List RE → RE
  | [] => RE.tok (fun _ => false)
  | [r] => r
  | r :: rs => RE.alt r (raltL rs)

/-- `r+` (greedy). -/
def rplus (r : RE) : RE :=
  RE.cat r (RE.star r)

/-- `r?` (greedy). -/
def ropt (r : RE) : RE :=
  RE.alt r RE.eps

/-- `r` repeated exactly `n` times. -/
def rrep (r : RE) : Nat → RE
  | 0 => RE.eps
  | n + 1 => RE.cat r (rrep r n)

/-- `r{0,n}` (greedy). -/
def rupto (r : RE) : Nat → RE
  | 0 => RE.eps
  | n + 1 => RE.alt (RE.cat r (rupto r n)) RE.eps

/-- `r{lo,hi}` (greedy). -/
def rrange (r : RE) (lo hi : Nat) : RE :=
  RE.cat (rrep r lo) (rupto r (hi - lo))

/-- Minimal number of characters any match of `r` must consume. -/
def minC : RE → Nat
  | .eps => 0
  | .tok _ => 1
  | .cat a b => minC a + minC b
  | .alt a b => min (minC a) (minC b)
  | .star _ => 0
  | .bndry => 0
  | .eol => 0

/-! ## `utils/text_extractor.py` -/

/-- char class `[a-zA-Z\s&\'-]` (section patterns 1 and 8). -/
def clsTitle (c : Char) : Bool :=
  c.isAlpha || pySpace c || c = '&' || c = '\'' || c = '-'

/-- char class `[A-Za-z\s\-&]` (section patterns 2, 4, 5). -/
def clsTitle2 (c : Char) : Bool :=
  c.isAlpha || pySpace c || c = '-' || c = '&'

/-- char class `[A-Z\s\-&]` (section pattern 3). -/
def clsCaps (c : Char) : Bool :=
  c.isUpper || pySpace c || c = '-' || c = '&'

/-- char class `[a-zA-Z\s]` (section pattern 7). -/
def clsAlphaSp (c : Char) : Bool :=
  c.isAlpha || pySpace c

/-- char class `[a-zA-Z\s&]` (section pattern 8 suffix). -/
def clsAlphaSpAmp (c : Char) : Bool :=
  c.isAlpha || pySpace c || c = '&'

def rUpper : RE := RE.tok Char.isUpper

def rLower : RE := RE.tok Char.isLower

def rDigit : RE := RE.tok Char.isDigit

def rSpace : RE := RE.tok pySpace

/-- `(?:Salad|Soup|Pasta|Pizza|Curry|Bowl|Dish|Recipe)` -/
def foodWordsAlt : RE :=
  raltL [rlits ("Salad"), rlits ("Soup"), rlits ("Pasta"), rlits ("Pizza"),
    rlits ("Curry"), rlits ("Bowl"), rlits ("Dish"), rlits ("Recipe")]

/-- `(?:Grilled|Baked|Roasted|Fresh|Steamed|Pan[- ]?fried)` -/
def cookWordsAlt : RE :=
  raltL [rlits ("Grilled"), rlits ("Baked"), rlits ("Roasted"), rlits ("Fresh"),
    rlits ("Steamed"),
    RE.cat (rlits ("Pan"))
      (RE.cat (ropt (RE.tok (fun c => c == '-' || c == ' '))) (rlits ("fried")))]

/-- `^[A-Z][a-zA-Z\s&\'-]{3,50}(?:\s+(?:Salad|...|Recipe))?$` -/
def secPat1 : RE :=
  RE.cat rUpper (RE.cat (rrange (RE.tok clsTitle) 3 50)
    (RE.cat (ropt (RE.cat (rplus rSpace) foodWordsAlt)) RE.eol))

/-- `^\d+\.\s+[A-Z][A-Za-z\s\-&]{5,60}$` -/
def secPat2 : RE :=
  RE.cat (rplus rDigit) (RE.cat (rlits (".")) (RE.cat (rplus rSpace)
    (RE.cat rUpper (RE.cat (rrange (RE.tok clsTitle2) 5 60) RE.eol))))

/-- `^[A-Z\s\-&]{8,50}$` -/
def secPat3 : RE :=
  RE.cat (rrange (RE.tok clsCaps) 8 50) RE.eol

/-- `^[A-Z][A-Za-z\s\-&]{10,60}$` -/
def secPat4 : RE :=
  RE.cat rUpper (RE.cat (rrange (RE.tok clsTitle2) 10 60) RE.eol)

/-- `^\•\s+[A-Z][A-Za-z\s\-&]{5,50}$` -/
def secPat5 : RE :=
  RE.cat (RE.tok (fun c => c == '•')) (RE.cat (rplus rSpace)
    (RE.cat rUpper (RE.cat (rrange (RE.tok clsTitle2) 5 50) RE.eol)))

/-- `^Introduction|^Overview|^Summary|^Conclusion` (no `$`: a prefix test
under `re.match`). -/
def secPat6 : RE :=
  raltL [rlits ("Introduction"), rlits ("Overview"), rlits ("Summary"),
    rlits ("Conclusion")]

/-- `^(?:Grilled|Baked|Roasted|Fresh|Steamed|Pan[- ]?fried)\s+[A-Z][a-zA-Z\s]{5,40}$` -/
def secPat7 : RE :=
  RE.cat cookWordsAlt (RE.cat (rplus rSpace)
    (RE.cat rUpper (RE.cat (rrange (RE.tok clsAlphaSp) 5 40) RE.eol)))

/-- `^[A-Z][a-zA-Z\s&\'-]+(?:\s+with\s+[A-Z][a-zA-Z\s&]+)?$` -/
def secPat8 : RE :=
  RE.cat rUpper (RE.cat (rplus (RE.tok clsTitle))
    (RE.cat (ropt (RE.cat (rplus rSpace) (RE.cat (rlits ("with"))
      (RE.cat (rplus rSpace) (RE.cat rUpper (rplus (RE.tok clsAlphaSpAmp)))))))
      RE.eol))

def section_patterns : List RE :=
  [secPat1, secPat2, secPat3, secPat4, secPat5, secPat6, secPat7, secPat8]

/-- `^\d+\s+(cups?|tablespoons?|teaspoons?|pounds?|ounces?)` -/
def quantityPat : RE :=
  RE.cat (rplus rDigit) (RE.cat (rplus rSpace)
    (raltL [RE.cat (rlits ("cup")) (ropt (rlits ("s"))),
            RE.cat (rlits ("tablespoon")) (ropt (rlits ("s"))),
            RE.cat (rlits ("teaspoon")) (ropt (rlits ("s"))),
            RE.cat (rlits ("pound")) (ropt (rlits ("s"))),
            RE.cat (rlits ("ounce")) (ropt (rlits ("s")))]))

/-- leading-junk class `[\s\•\-\*\d\.\)\(]` of `is_section_header`. -/
def headJunk (c : Char) : Bool :=
  pySpace c || c = '•' || c = '-' || c = '*' || c = '' || c = '' ||
  c.isDigit || c = '.' || c = ')' || c = '('

def headerStops : List (List Char) :=
  strs ["ingredients", "instructions", "directions", "method", "serves", "prep time"]

def headerSmallWords : List (List Char) :=
  strs ["the", "and", "or", "but", "with", "for", "in", "on", "at"]

/-- `EnhancedTextExtractor.is_section_header`. -/
def is_section_header (line : List Char) : Bool :=
  if line.isEmpty || line.length < 3 then false
  else
    let clean := pyStrip (line.dropWhile headJunk)
    if clean.isEmpty then false
    else if section_patterns.any (fun r => pyMatchB r clean) then true
    else
      let cl := pyLower clean
      if 3 ≤ clean.length ∧ clean.length ≤ 80 ∧
         2 ≤ (pySplitWs clean).length ∧
         startsWithAny cl headerStops = false ∧
         pyMatchB quantityPat cl = false then
        let ws := pySplitWs clean
        if 2 ≤ ws.length ∧
           (match ws with
            | [] => false
            | w :: _ => match w with | [] => false | c :: _ => c.isUpper) = true ∧
           clean.getLast? ≠ some '.' ∧
           (ws.take 2).any (fun word => headerSmallWords.contains (pyLower word)) = false
        then true else false
      else false

structure DetSection where
  title : List Char
  content : List Char
  line_number : Nat
deriving Repr, DecidableEq

/-- Loop body of `EnhancedTextExtractor.detect_sections`: a stripped line
that passes `is_section_header` yields a section whose content is the
10-line window `lines[i:i+10]` joined with newlines. -/
def detectFrom (lines : List (List Char)) : Nat → List (List Char) → List DetSection
  | _, [] => []
  | i, l :: rest =>
    if is_section_header (pyStrip l) then
      { title := pyStrip l,
        content := joinWith ['\n'] ((lines.drop i).take 10),
        line_number := i + 1 } :: detectFrom lines (i + 1) rest
    else detectFrom lines (i + 1) rest

def detect_sections (t : List Char) : List DetSection :=
  detectFrom (splitOnChar '\n' t) 0 (splitOnChar '\n' t)

/-- leading-junk class `[\s\•\-\*\d\.\)]` of
`generate_section_title` (note: no `(` here, unlike `is_section_header`). -/
def gstJunk (c : Char) : Bool :=
  pySpace c || c = '•' || c = '-' || c = '*' || c = '' || c = '' ||
  c.isDigit || c = '.' || c = ')'

/-- kept characters of `re.sub(r'[^\w\s\-&\']', '', _)`. -/
def gstKeep (c : Char) : Bool :=
  isWordCh c || pySpace c || c = '-' || c = '&' || c = '\''

def gstStops : List (List Char) :=
  strs ["ingredients", "instructions", "directions"]

/-- First loop of `generate_section_title` over `lines[:5]`: strip the
line, keep only word, space, dash, ampersand and apostrophe characters
after removing leading junk, and accept a 2-word cleaned title of
length at most 60. -/
def firstGoodLine : List (List Char) → Option (List Char)
  | [] => none
  | l :: ls =>
    if ¬(pyStrip l).isEmpty = true ∧ 3 ≤ (pyStrip l).length ∧ (pyStrip l).length ≤ 80 then
      if 2 ≤ (pySplitWs (pyStrip (((pyStrip l).dropWhile gstJunk).filter gstKeep))).length ∧
         (pyStrip (((pyStrip l).dropWhile gstJunk).filter gstKeep)).length ≤ 60 ∧
         startsWithAny (pyLower (pyStrip (((pyStrip l).dropWhile gstJunk).filter gstKeep)))
           gstStops = false
      then some (pyStrip (((pyStrip l).dropWhile gstJunk).filter gstKeep))
      else firstGoodLine ls
    else firstGoodLine ls

/-- `(?:\s+[A-Z][a-z]+)*` -/
def capWordStar : RE :=
  RE.star (RE.cat (rplus rSpace) (RE.cat rUpper (rplus rLower)))

/-- `\b[A-Z][a-z]+(?:\s+[A-Z][a-z]+)*(?:\s+(?:Salad|...|Recipe))\b` -/
def gstFood1 : RE :=
  RE.cat RE.bndry (RE.cat rUpper (RE.cat (rplus rLower)
    (RE.cat capWordStar (RE.cat (RE.cat (rplus rSpace) foodWordsAlt) RE.bndry))))

/-- `\b(?:Grilled|...|Pan[- ]?fried)\s+[A-Z][a-z]+(?:\s+[A-Z][a-z]+)*\b` -/
def gstFood2 : RE :=
  RE.cat RE.bndry (RE.cat cookWordsAlt (RE.cat (rplus rSpace)
    (RE.cat rUpper (RE.cat (rplus rLower) (RE.cat capWordStar RE.bndry)))))

/-- `\b[A-Z][a-z]+\s+(?:with|and)\s+[A-Z][a-z]+(?:\s+[A-Z][a-z]+)*\b` -/
def gstFood3 : RE :=
  RE.cat RE.bndry (RE.cat rUpper (RE.cat (rplus rLower)
    (RE.cat (rplus rSpace) (RE.cat (raltL [rlits ("with"), rlits ("and")])
      (RE.cat (rplus rSpace) (RE.cat rUpper (RE.cat (rplus rLower)
        (RE.cat capWordStar RE.bndry))))))))

/-- `\b[A-Z][a-z]+(?:\s+[A-Z][a-z]+){1,3}\b` -/
def gstCapPat : RE :=
  RE.cat RE.bndry (RE.cat rUpper (RE.cat (rplus rLower)
    (RE.cat (rrange (RE.cat (rplus rSpace) (RE.cat rUpper (rplus rLower))) 1 3)
      RE.bndry)))

/-- Second ladder rung of `generate_section_title`: first of the three
food patterns having a match, with that pattern's first match. -/
def firstFoodMatch (t : List Char) : Option (List Char) :=
  match reSearch gstFood1 t with
  | some m => some m
  | none =>
    match reSearch gstFood2 t with
    | some m => some m
    | none => reSearch gstFood3 t

def gstCapBad : List (List Char) :=
  strs ["The United", "South Of", "North America"]

def capOk (m : List Char) : Bool :=
  decide (2 ≤ (pySplitWs m).length) && decide (m.length ≤ 50) &&
  !(gstCapBad.contains (pyLower m))

/-- Last ladder rung: first 6 words longer than 2 characters, truncated
to 50 characters with an ellipsis. -/
def gstFallbackWords (t : List Char) : List Char :=
  if (((pySplitWs t).filter (fun w => 2 < w.length)).take 6).isEmpty then
    ("Content Section").data
  else
    (joinWith [' '] (((pySplitWs t).filter (fun w => 2 < w.length)).take 6)).take 50 ++
      (if 50 < (joinWith [' '] (((pySplitWs t).filter (fun w => 2 < w.length)).take 6)).length
       then ("...").data else [])

/-- `EnhancedTextExtractor.generate_section_title`. -/
def generate_section_title (t : List Char) : List Char :=
  match firstGoodLine ((splitOnChar '\n' (pyStrip t)).take 5) with
  | some title => title
  | none =>
    match firstFoodMatch t with
    | some m => m.take 60
    | none =>
      match (reFindAll gstCapPat t).find? capOk with
      | some m => m
      | none => gstFallbackWords t

structure Page where
  page_number : Nat
  text : List Char
  sections : List DetSection
  word_count : Nat
deriving Repr, DecidableEq

/-- `extract_text_with_sections`: keep non-blank pages, numbered 1-based
by original position.  The page texts stand for the output of the
external PDF text extraction. -/
def extract_text_with_sections (pages : List (List Char)) : List Page :=
  (pages.enum.filter (fun it => !(pyStrip it.2).isEmpty)).map
    (fun it => { page_number := it.1 + 1, text := it.2,
                 sections := detect_sections it.2,
                 word_count := (pySplitWs it.2).length })

structure RankSection where
  page_number : Nat
  text : List Char
  section_title : List Char
  source : List Char
deriving Repr, DecidableEq

/-- Per-page body of the loop in `get_page_sections_for_ranking`. -/
def sectionsForPage (p : Page) : List RankSection :=
  if ¬p.sections.isEmpty then
    p.sections.map (fun s => { page_number := p.page_number, text := s.content,
                               section_title := s.title,
                               source := ("detected_section").data })
  else
    [{ page_number := p.page_number, text := p.text,
       section_title := generate_section_title p.text,
       source := ("page_content").data }]

/-- `get_page_sections_for_ranking` (default `max_pages_per_doc = 5`). -/
def get_page_sections_for_ranking (pages : List (List Char))
    (max_pages_per_doc : Nat) : List RankSection :=
  (((extract_text_with_sections pages).take max_pages_per_doc).map sectionsForPage).flatten

/-! ## `utils/ranker.py` -/

/-- `get_enhanced_persona_keywords`: the static persona table as
(high, medium, low) keyword tiers; unknown roles get empty tiers. -/
def personaTable (role : List Char) :
    List (List Char) × List (List Char) × List (List Char) :=
  if role = ("Travel Planner").data then
    (strs ["itinerary", "accommodation", "transportation", "attractions", "budget", "booking", "schedule"],
     strs ["travel", "trip", "vacation", "hotel", "restaurant", "activity", "tour", "destination"],
     strs ["guide", "tips", "culture", "history", "food", "shopping"])
  else if role = ("HR Professional").data then
    (strs ["onboarding", "compliance", "workflow", "forms", "signatures", "employee", "digital"],
     strs ["management", "process", "document", "training", "policy", "procedure"],
     strs ["create", "edit", "share", "convert", "export"])
  else if role = ("Food Contractor").data then
    (strs ["menu", "catering", "buffet", "corporate", "vegetarian", "gluten-free", "dinner", "recipe"],
     strs ["meal", "ingredient", "cooking", "preparation", "serving", "nutrition"],
     strs ["breakfast", "lunch", "snack", "appetizer", "dessert"])
  else if role = ("PhD Researcher").data then
    (strs ["methodology", "dataset", "benchmark", "evaluation", "literature", "review", "analysis"],
     strs ["research", "study", "experiment", "result", "conclusion", "hypothesis"],
     strs ["paper", "journal", "citation", "reference", "abstract"])
  else if role = ("Investment Analyst").data then
    (strs ["revenue", "profit", "investment", "market", "financial", "analysis", "trend"],
     strs ["company", "performance", "strategy", "growth", "risk", "portfolio"],
     strs ["report", "quarter", "annual", "earnings", "stock"])
  else if role = ("Student").data then
    (strs ["exam", "study", "concept", "mechanism", "theory", "practice", "preparation"],
     strs ["chapter", "topic", "subject", "learning", "understand", "knowledge"],
     strs ["textbook", "course", "class", "assignment", "homework"])
  else ([], [], [])

def personaHigh (role : List Char) : List (List Char) :=
  (personaTable role).1

def personaMed (role : List Char) : List (List Char) :=
  (personaTable role).2.1

def personaLow (role : List Char) : List (List Char) :=
  (personaTable role).2.2

/-- Maximal runs of word characters (each begins and ends at a `\b`). -/
def wordRunsAux : List Char → List Char → List (List Char)
  | [], acc => if acc.isEmpty then [] else [acc.reverse]
  | c :: t, acc =>
    if isWordCh c then wordRunsAux t (c :: acc)
    else if acc.isEmpty then wordRunsAux t [] else acc.reverse :: wordRunsAux t []

def wordRuns (s : List Char) : List (List Char) :=
  wordRunsAux s []

def actionRoots : List (List Char) :=
  strs ["prepare", "create", "analyze", "identify", "summarize", "review",
        "plan", "develop", "design", "build"]

/-- `re.findall(r'\b(?:prepare|...|build)\w*\b', job_lower)`: whole word
runs that begin with an action root (the trailing `\w*` is greedy, so a
match always extends to the end of its word run). -/
def action_words (jobLower : List Char) : List (List Char) :=
  (wordRuns jobLower).filter (fun r => actionRoots.any (fun a => a.isPrefixOf r))

/-- `re.findall(r'\b[a-zA-Z]{4,}\b', job_lower)`: word runs that are
purely alphabetic with length at least 4 (an alphabetic span inside a
mixed run is not bracketed by word boundaries). -/
def domain_terms (jobLower : List Char) : List (List Char) :=
  (wordRuns jobLower).filter (fun r => r.all Char.isAlpha && decide (4 ≤ r.length))

def isQuoteCh (c : Char) : Bool :=
  c = '"' || c = '\''

/-- `re.findall(r'["\']([^"\']+)["\']', job_task)`: nonempty quote-free
spans directly enclosed by (possibly mismatched) quote characters,
scanning left to right and resuming after each closing quote. -/
def quotedTermsGo : Nat → List Char → List (List Char)
  | 0, _ => []
  | _ + 1, [] => []
  | f + 1, c :: t =>
    if isQuoteCh c then
      match t.dropWhile (fun d => !isQuoteCh d) with
      | [] => []
      | _ :: t2 =>
        if (t.takeWhile (fun d => !isQuoteCh d)).isEmpty then quotedTermsGo f t
        else (t.takeWhile (fun d => !isQuoteCh d)) :: quotedTermsGo f t2
    else quotedTermsGo f t

def quotedTerms (s : List Char) : List (List Char) :=
  quotedTermsGo (s.length + 1) s

/-- `get_enhanced_job_keywords` high tier: action words plus quoted
terms, deduplicated (`list(set(...))`). -/
def jobHigh (job : List Char) : List (List Char) :=
  (action_words (pyLower job) ++ quotedTerms job).dedup

/-- `get_enhanced_job_keywords` medium tier: domain terms longer than 4. -/
def jobMed (job : List Char) : List (List Char) :=
  ((domain_terms (pyLower job)).filter (fun r => decide (4 < r.length))).dedup

/-- How many keywords of `kws` occur as substrings of `tl`. -/
def cntN (kws : List (List Char)) (tl : List Char) : Nat :=
  (kws.filter (fun kw => containsSub kw tl)).length

/-- `persona_score`: `sum(3 for kw in high if kw in text_lower)*3 +
sum(2 for kw in medium ...)*2 + sum(1 for kw in low ...)` (a Python int). -/
def persona_score (role text : List Char) : Nat :=
  3 * cntN (personaHigh role) (pyLower text) * 3 +
    2 * cntN (personaMed role) (pyLower text) * 2 +
    cntN (personaLow role) (pyLower text)

/-- `job_score`: `sum(5 for kw in high ...)*5 + sum(2 for kw in medium ...)*2`. -/
def job_score (job text : List Char) : Nat :=
  5 * cntN (jobHigh job) (pyLower text) * 5 +
    2 * cntN (jobMed job) (pyLower text) * 2

def b2n (b : Bool) (v : Nat) : Nat :=
  if b then v else 0

def b2z (b : Bool) (v : Int) : Int :=
  if b then v else 0

def anyIn (terms : List (List Char)) (tl : List Char) : Bool :=
  terms.any (fun kw => containsSub kw tl)

/-- Meal-type document bonuses (+5 each for dinner/breakfast/lunch in
both job and document name). -/
def meal_bonus (job doc : List Char) : Nat :=
  b2n (containsSub ("dinner").data (pyLower job) && containsSub ("dinner").data (pyLower doc)) 5 +
  b2n (containsSub ("breakfast").data (pyLower job) && containsSub ("breakfast").data (pyLower doc)) 5 +
  b2n (containsSub ("lunch").data (pyLower job) && containsSub ("lunch").data (pyLower doc)) 5

def academicTerms : List (List Char) :=
  strs ["methodology", "dataset", "benchmark", "evaluation", "literature",
        "study", "research", "analysis", "experiment"]

def academic_bonus (role text : List Char) : Nat :=
  b2n (anyIn (strs ["researcher", "phd", "student", "academic"]) (pyLower role))
    (cntN academicTerms (pyLower text) * 2)

def businessTerms : List (List Char) :=
  strs ["revenue", "profit", "market", "financial", "growth", "strategy",
        "investment", "performance"]

def business_bonus (role text : List Char) : Nat :=
  b2n (anyIn (strs ["analyst", "investment", "business"]) (pyLower role))
    (cntN businessTerms (pyLower text) * 2)

def travelTerms : List (List Char) :=
  strs ["hotel", "restaurant", "attraction", "tour", "booking", "itinerary",
        "destination"]

def travel_bonus (role text : List Char) : Nat :=
  b2n (containsSub ("travel").data (pyLower role))
    (cntN travelTerms (pyLower text) * 2)

def vegetarianTerms : List (List Char) :=
  strs ["vegetarian", "vegan", "plant-based", "tofu", "beans", "lentils",
        "quinoa", "vegetables"]

def meatTerms : List (List Char) :=
  strs ["beef", "chicken", "pork", "lamb", "turkey", "fish", "salmon",
        "tuna", "meat", "poultry"]

/-- `+4` when the job mentions vegetarian and a vegetarian indicator occurs. -/
def veg_bonus (job text : List Char) : Nat :=
  b2n (containsSub ("vegetarian").data (pyLower job) && anyIn vegetarianTerms (pyLower text)) 4

/-- `-8` when the job mentions vegetarian and a meat indicator occurs. -/
def veg_penalty (job text : List Char) : Int :=
  b2z (containsSub ("vegetarian").data (pyLower job) && anyIn meatTerms (pyLower text)) (-8)

def glutenFreeTerms : List (List Char) :=
  strs ["gluten-free", "gluten free", "rice", "corn", "quinoa"]

def glutenTerms : List (List Char) :=
  strs ["wheat", "flour", "bread", "pasta", "barley", "rye"]

def gf_bonus (job text : List Char) : Nat :=
  b2n (containsSub ("gluten-free").data (pyLower job) && anyIn glutenFreeTerms (pyLower text)) 3

def gf_penalty (job text : List Char) : Int :=
  b2z (containsSub ("gluten-free").data (pyLower job) && anyIn glutenTerms (pyLower text)) (-4)

def buffetTerms : List (List Char) :=
  strs ["buffet", "serving", "large batch", "crowd", "party", "catering"]

def buffet_bonus (job text : List Char) : Nat :=
  b2n (containsSub ("buffet").data (pyLower job) && anyIn buffetTerms (pyLower text)) 2

/-- `-3` for breakfast documents under a dinner job. -/
def mismatch_penalty (job doc : List Char) : Int :=
  b2z (containsSub ("dinner").data (pyLower job) && containsSub ("breakfast").data (pyLower doc)) (-3)

/-- `-1` for dessert content under a corporate job. -/
def dessert_penalty (job text : List Char) : Int :=
  b2z (containsSub ("corporate").data (pyLower job) && containsSub ("dessert").data (pyLower text)) (-1)

/-- `context_bonus` accumulator (a Python int, never negative). -/
def context_bonus (role job text doc : List Char) : Nat :=
  meal_bonus job doc + academic_bonus role text + business_bonus role text +
    travel_bonus role text + veg_bonus job text + gf_bonus job text +
    buffet_bonus job text

/-- `penalty` accumulator (a Python int, never positive). -/
def penalty_total (job text doc : List Char) : Int :=
  veg_penalty job text + gf_penalty job text + mismatch_penalty job doc +
    dessert_penalty job text

/-- `max(len(text.split()) / 100, 1)`. -/
def text_length_norm (text : List Char) : ℚ :=
  max (((pySplitWs text).length : ℚ) / 100) 1

/-- The composite score before length normalization:
`persona_score*0.3 + job_score*0.5 + context_bonus*0.2 + penalty`. -/
def pre_norm_score (role job text doc : List Char) : ℚ :=
  (persona_score role text : ℚ) * 0.3 + (job_score job text : ℚ) * 0.5 +
    (context_bonus role job text doc : ℚ) * 0.2 + (penalty_total job text doc : ℚ)

/-- `ContentRanker.calculate_enhanced_relevance_score`. -/
def calculate_enhanced_relevance_score (role job text doc : List Char) : ℚ :=
  max (pre_norm_score role job text doc / text_length_norm text) 0

structure Sec where
  document : List Char
  page_number : Nat
  text : List Char
  section_title : List Char
  source : List Char
  relevance_score : ℚ
  importance_rank : Nat
deriving Repr, DecidableEq

/-- Title-quality test of `rank_sections`: at least two words and not
starting with `"Content"`. -/
def titleBonus (title : List Char) : Bool :=
  decide (2 ≤ (pySplitWs title).length) && !(("Content").data.isPrefixOf title)

/-- Per-section scoring step of `rank_sections`: `0.4·tfidf + 0.6·keyword`,
plus `0.1` for a good title. -/
def scoreSec (role job : List Char) (tf : ℚ) (s : Sec) : Sec :=
  { s with relevance_score :=
      tf * 0.4 + calculate_enhanced_relevance_score role job s.text s.document * 0.6 +
        (if titleBonus s.section_title then 0.1 else 0) }

/-- Scoring loop: section `i` gets similarity `i` (`0` past the end of
the similarity vector, as in `... if i < len(tfidf_similarities) else 0`). -/
def scoreAllGo (role job : List Char) : List ℚ → List Sec → List Sec
  | _, [] => []
  | tfs, s :: rest => scoreSec role job (tfs.headD 0) s :: scoreAllGo role job tfs.tail rest

/-- Stable descending insertion by `relevance_score`: a later element is
placed after all earlier elements of greater-or-equal score, which is
exactly Python's stable `sorted(..., reverse=True)`. -/
def insertDesc (x : Sec) : List Sec → List Sec
  | [] => [x]
  | y :: ys =>
    if x.relevance_score < y.relevance_score then y :: insertDesc x ys
    else x :: y :: ys

def sortDesc : List Sec → List Sec
  | [] => []
  | x :: xs => insertDesc x (sortDesc xs)

/-- `for rank, section in enumerate(ranked_sections, 1)`. -/
def assignRanksFrom : Nat → List Sec → List Sec
  | _, [] => []
  | k, s :: rest => { s with importance_rank := k } :: assignRanksFrom (k + 1) rest

/-- `ContentRanker.rank_sections`.  `tfs` stands for the cosine
similarity vector produced by the external TF-IDF library; when
vectorization raises, the `np.zeros` default is kept, i.e. `tfs` is all
zeros and scoring degrades to the keyword heuristics. -/
def rank_sections (role job : List Char) (tfs : List ℚ) (ss : List Sec) : List Sec :=
  if ss.isEmpty then []
  else assignRanksFrom 1 (sortDesc (scoreAllGo role job tfs ss))

/-- Paragraph list of `extract_refined_subsection`: split on blank
lines, strip, drop empties; if nothing remains, split on single
newlines instead. -/
def paragraphsOf (t : List Char) : List (List Char) :=
  let ps := ((splitOnNl2 t).map pyStrip).filter (fun p => !p.isEmpty)
  if ps.isEmpty then ((splitOnChar '\n' t).map pyStrip).filter (fun p => !p.isEmpty)
  else ps

/-- `(score, paragraph)` pairs for paragraphs longer than 30 characters,
scored with an empty document name. -/
def scoredParas (role job t : List Char) : List (ℚ × List Char) :=
  ((paragraphsOf t).filter (fun p => decide (30 < p.length))).map
    (fun p => (calculate_enhanced_relevance_score role job p [], p))

def insertDescP (x : ℚ × List Char) : List (ℚ × List Char) → List (ℚ × List Char)
  | [] => [x]
  | y :: ys => if x.1 < y.1 then y :: insertDescP x ys else x :: y :: ys

def sortDescP : List (ℚ × List Char) → List (ℚ × List Char)
  | [] => []
  | x :: xs => insertDescP x (sortDescP xs)

/-- Greedy assembly loop of `extract_refined_subsection`: append whole
paragraphs (plus a blank line) while they fit within `L`; at the first
overflowing paragraph, if more than 100 characters remain, append a
prefix (cut at a late sentence end, else hard cut plus `"..."`); then
stop. -/
def assembleParas (L : Nat) : List (ℚ × List Char) → List Char → List Char
  | [], acc => acc
  | (_, p) :: rest, acc =>
    if acc.length + p.length ≤ L then
      assembleParas L rest (acc ++ p ++ ['\n', '\n'])
    else
      let remaining : Int := (L : Int) - (acc.length : Int)
      if 100 < remaining then
        let pref := p.take remaining.toNat
        let lastSentence : Int := pyRFind '.' pref
        if (remaining : ℚ) * 0.7 < (lastSentence : ℚ) then
          acc ++ pref.take (lastSentence.toNat + 1)
        else acc ++ pref ++ ("...").data
      else acc

/-- `return result_text.strip() or text[:max_length] + "..."`: the final
fallback of `extract_refined_subsection` (`r` is the stripped assembly). -/
def refineFallback (t : List Char) (max_length : Nat) (r : List Char) : List Char :=
  if r.isEmpty then t.take max_length ++ ("...").data else r

/-- `ContentRanker.extract_refined_subsection` (default `max_length = 1000`). -/
def extract_refined_subsection (role job t : List Char) (max_length : Nat) : List Char :=
  if t.length ≤ max_length then pyStrip t
  else refineFallback t max_length
    (pyStrip (assembleParas max_length (sortDescP (scoredParas role job t)) []))

/-- Forget `importance_rank` (used to state stability of the sort across
the later rank assignment). -/
def noRank (s : Sec) : Sec :=
  { s with importance_rank := 0 }

/-- The frame fields of a section: everything except `relevance_score`
and `importance_rank`. -/
def frameOf (s : Sec) : List Char × Nat × List Char × List Char × List Char :=
  (s.document, s.page_number, s.text, s.section_title, s.source)

/-- Concrete sections used in closed-form checks. -/
def sampleSecA : Sec :=
  { document := ("doc1.pdf").data, page_number := 1,
    text := ("tofu dinner").data, section_title := ("Tofu Dinner").data,
    source := ("page_content").data, relevance_score := 0, importance_rank := 0 }

def sampleSecB : Sec :=
  { document := ("doc2.pdf").data, page_number := 2,
    text := ("chicken stew").data, section_title := ("Chicken Stew").data,
    source := ("page_content").data, relevance_score := 0, importance_rank := 0 }

/-- The single ranked output of a keyword-only run over `[sampleSecA]`. -/
def sampleRankedA : Sec :=
  { scoreSec ("Food Contractor").data ("vegetarian dinner menu").data 0 sampleSecA with
    importance_rank := 1 }

/-- Concrete page text used in closed-form checks: no line of it is a
section header. -/
def c5text : List Char :=
  ("hello world? no.").data

/-- The page record `extract_text_with_sections` builds for `c5text`. -/
def c5pageRec : Page :=
  { page_number := 1, text := c5text, sections := [], word_count := 3 }

/-- A 12-line page whose first line is a header. -/
def c6page : List Char :=
  ("Introduction\na\nb\nc\nd\ne\nf\ng\nh\ni\nj\nk").data

/-! # Theorems -/

/-! ### Engine facts used for non-emptiness of extracted matches -/

theorem reMatch_minC_le :
    ∀ (fuel : Nat) (r : RE) (p : Option Char) (s : List Char)
      (k : Option Char → List Char → Option Nat) (c m : Nat),
      (∀ q t j, k q t = some j → c ≤ j) →
      reMatch fuel r p s k = some m → minC r + c ≤ m := by
  intro fuel
  induction fuel with
  | zero => intro r p s k c m _ h; simp [reMatch] at h
  | succ fuel ih =>
    intro r p s k c m hk h
    cases r with
    | eps => exact Nat.le_trans (by simp [minC]) (hk p s m h)
    | tok f =>
      cases s with
      | nil => simp [reMatch] at h
      | cons ch cs =>
        simp only [reMatch] at h
        by_cases hf : f ch
        · simp only [hf, if_pos] at h
          rcases Option.map_eq_some'.mp h with ⟨j, hj, hm⟩
          have := hk (some ch) cs j hj
          simp [minC]; omega
        · simp [hf] at h
    | cat a b =>
      simp only [reMatch] at h
      have hk2 : ∀ q t j, reMatch fuel b q t k = some j → minC b + c ≤ j := by
        intro q t j hj; exact ih b q t k c j hk hj
      have := ih a p s _ (minC b + c) m hk2 h
      simp [minC]; omega
    | alt a b =>
      simp only [reMatch] at h
      rcases ha : reMatch fuel a p s k with _ | n
      · rw [ha] at h; simp [Option.orElse] at h
        have := ih b p s k c m hk h
        have hm : min (minC a) (minC b) ≤ minC b := Nat.min_le_right _ _
        simp [minC]; omega
      · rw [ha] at h; simp [Option.orElse] at h
        subst h
        have := ih a p s k c n hk ha
        have hm : min (minC a) (minC b) ≤ minC a := Nat.min_le_left _ _
        simp [minC]; omega
    | star a =>
      simp only [reMatch] at h
      rcases ha : reMatch fuel a p s (fun q t => reMatch fuel (.star a) q t k) with _ | n
      · rw [ha] at h; simp [Option.orElse] at h
        exact Nat.le_trans (by simp [minC]) (hk p s m h)
      · rw [ha] at h; simp [Option.orElse] at h
        subst h
        have hk2 : ∀ q t j, reMatch fuel (.star a) q t k = some j → c ≤ j := by
          intro q t j hj
          have := ih (.star a) q t k c j hk hj
          simp [minC] at this; omega
        have := ih a p s _ c n hk2 ha
        simp [minC]; omega
    | bndry =>
      simp only [reMatch] at h
      by_cases hb : wordBoundaryAt p s
      · simp only [hb, if_pos] at h
        exact Nat.le_trans (by simp [minC]) (hk p s m h)
      · simp [hb] at h
    | eol =>
      simp only [reMatch] at h
      by_cases hb : (s.isEmpty || s == ['\n']) = true
      · simp only [hb, if_pos] at h
        exact Nat.le_trans (by simp [minC]) (hk p s m h)
      · simp [hb] at h

theorem reMatch_le_length :
    ∀ (fuel : Nat) (r : RE) (p : Option Char) (s : List Char)
      (k : Option Char → List Char → Option Nat) (m : Nat),
      (∀ q t j, k q t = some j → j ≤ t.length) →
      reMatch fuel r p s k = some m → m ≤ s.length := by
  intro fuel
  induction fuel with
  | zero => intro r p s k m _ h; simp [reMatch] at h
  | succ fuel ih =>
    intro r p s k m hk h
    cases r with
    | eps => exact hk p s m h
    | tok f =>
      cases s with
      | nil => simp [reMatch] at h
      | cons ch cs =>
        simp only [reMatch] at h
        by_cases hf : f ch
        · simp only [hf, if_pos] at h
          rcases Option.map_eq_some'.mp h with ⟨j, hj, hm⟩
          have := hk (some ch) cs j hj
          simp; omega
        · simp [hf] at h
    | cat a b =>
      simp only [reMatch] at h
      have hk2 : ∀ q t j, reMatch fuel b q t k = some j → j ≤ t.length := by
        intro q t j hj; exact ih b q t k j hk hj
      exact ih a p s _ m hk2 h
    | alt a b =>
      simp only [reMatch] at h
      rcases ha : reMatch fuel a p s k with _ | n
      · rw [ha] at h; simp [Option.orElse] at h
        exact ih b p s k m hk h
      · rw [ha] at h; simp [Option.orElse] at h
        subst h; exact ih a p s k n hk ha
    | star a =>
      simp only [reMatch] at h
      rcases ha : reMatch fuel a p s (fun q t => reMatch fuel (.star a) q t k) with _ | n
      · rw [ha] at h; simp [Option.orElse] at h
        exact hk p s m h
      · rw [ha] at h; simp [Option.orElse] at h
        subst h
        have hk2 : ∀ q t j, reMatch fuel (.star a) q t k = some j → j ≤ t.length := by
          intro q t j hj; exact ih (.star a) q t k j hk hj
        exact ih a p s _ n hk2 ha
    | bndry =>
      simp only [reMatch] at h
      by_cases hb : wordBoundaryAt p s
      · simp only [hb, if_pos] at h; exact hk p s m h
      · simp [hb] at h
    | eol =>
      simp only [reMatch] at h
      by_cases hb : (s.isEmpty || s == ['\n']) = true
      · simp only [hb, if_pos] at h; exact hk p s m h
      · simp [hb] at h

theorem reSearchFrom_ne_nil (r : RE) (h1 : 1 ≤ minC r) :
    ∀ (s : List Char) (p : Option Char) (w : List Char),
      reSearchFrom r p s = some w → w ≠ [] := by
  intro s
  induction s with
  | nil =>
    intro p w h
    simp only [reSearchFrom] at h
    rcases hm : reMatch (reFuel []) r p [] (fun _ _ => some 0) with _ | n
    · rw [hm] at h; exact absurd h (by simp)
    · rw [hm] at h
      have hge := reMatch_minC_le _ r p [] _ 0 n (by intro q t j hj; omega) hm
      have hle := reMatch_le_length _ r p [] _ n
        (by intro q t j hj; simp at hj; omega) hm
      simp at hle; omega
  | cons c cs ih =>
    intro p w h
    simp only [reSearchFrom] at h
    rcases hm : reMatch (reFuel (c :: cs)) r p (c :: cs) (fun _ _ => some 0) with _ | n
    · rw [hm] at h; exact ih (some c) w h
    · rw [hm] at h
      simp at h
      have hge := reMatch_minC_le _ r p (c :: cs) _ 0 n (by intro q t j hj; omega) hm
      have h1n : 1 ≤ n := by omega
      rcases n with _ | n
      · omega
      · rw [← h]; simp

theorem reFindAll_ne_nil (r : RE) (h1 : 1 ≤ minC r) :
    ∀ (f : Nat) (p : Option Char) (s w : List Char),
      w ∈ reFindAllGo r f p s → w ≠ [] := by
  intro f
  induction f with
  | zero => intro p s w h; simp [reFindAllGo] at h
  | succ f ih =>
    intro p s w h
    simp only [reFindAllGo] at h
    rcases hm : reMatch (reFuel s) r p s (fun _ _ => some 0) with _ | n
    · rw [hm] at h
      cases s with
      | nil => simp at h
      | cons c cs => exact ih (some c) cs w h
    · rw [hm] at h
      simp at h
      rcases h with h | h
      · have hge := reMatch_minC_le _ r p s _ 0 n (by intro q t j hj; omega) hm
        have hle := reMatch_le_length _ r p s _ n
          (by intro q t j hj; simp at hj; omega) hm
        have h1n : 1 ≤ n := by omega
        intro hw
        rw [h] at hw
        have := List.length_take n s
        rw [hw] at this
        simp at this
        omega
      · exact ih _ _ w h


/-! ### String utility facts -/

theorem pyStrip_length_le (s : List Char) : (pyStrip s).length ≤ s.length := by
  unfold pyStrip
  rw [List.length_reverse]
  refine le_trans (List.dropWhile_sublist _).length_le ?_
  rw [List.length_reverse]
  exact (List.dropWhile_sublist _).length_le

theorem containsSub_nil (needle : List Char) (h : needle ≠ []) :
    containsSub needle [] = false := by
  cases needle with
  | nil => exact absurd rfl h
  | cons c t => simp [containsSub]

theorem pySplitWs_nil : pySplitWs [] = [] := rfl

/-! ### Stable descending sort facts -/

theorem insertDesc_perm (x : Sec) (l : List Sec) : (insertDesc x l).Perm (x :: l) := by
  induction l with
  | nil => simp [insertDesc]
  | cons y ys ih =>
    unfold insertDesc
    by_cases h : x.relevance_score < y.relevance_score
    · simp only [h, if_pos]
      exact (ih.cons y).trans (List.Perm.swap x y ys)
    · simp only [h, if_neg, not_false_iff]
      exact List.Perm.refl _

theorem sortDesc_perm (l : List Sec) : (sortDesc l).Perm l := by
  induction l with
  | nil => simp [sortDesc]
  | cons x xs ih =>
    exact (insertDesc_perm x (sortDesc xs)).trans (ih.cons x)

theorem insertDesc_sorted (x : Sec) (l : List Sec)
    (hl : l.Pairwise (fun a b => b.relevance_score ≤ a.relevance_score)) :
    (insertDesc x l).Pairwise (fun a b => b.relevance_score ≤ a.relevance_score) := by
  induction l with
  | nil => simp [insertDesc]
  | cons y ys ih =>
    rcases List.pairwise_cons.mp hl with ⟨hy, hys⟩
    unfold insertDesc
    by_cases h : x.relevance_score < y.relevance_score
    · simp only [h, if_pos]
      refine List.pairwise_cons.mpr ⟨?_, ih hys⟩
      intro z hz
      rcases List.mem_cons.mp ((insertDesc_perm x ys).mem_iff.mp hz) with hz | hz
      · subst hz; exact le_of_lt h
      · exact hy z hz
    · simp only [h, if_neg, not_false_iff]
      have hxy : y.relevance_score ≤ x.relevance_score := le_of_not_lt h
      refine List.pairwise_cons.mpr ⟨?_, hl⟩
      intro z hz
      rcases List.mem_cons.mp hz with hz | hz
      · subst hz; exact hxy
      · exact le_trans (hy z hz) hxy

theorem sortDesc_sorted (l : List Sec) :
    (sortDesc l).Pairwise (fun a b => b.relevance_score ≤ a.relevance_score) := by
  induction l with
  | nil => simp [sortDesc]
  | cons x xs ih => exact insertDesc_sorted x (sortDesc xs) ih

theorem insertDesc_filter_ne (x : Sec) (l : List Sec) (c : ℚ)
    (hx : x.relevance_score ≠ c) :
    (insertDesc x l).filter (fun s => decide (s.relevance_score = c)) =
      l.filter (fun s => decide (s.relevance_score = c)) := by
  induction l with
  | nil => simp [insertDesc, hx]
  | cons y ys ih =>
    unfold insertDesc
    by_cases h : x.relevance_score < y.relevance_score
    · simp only [h, if_pos, List.filter_cons]
      rw [ih]
    · simp only [h, if_neg, not_false_iff, List.filter_cons]
      simp [hx]

theorem insertDesc_filter_eq (x : Sec) (l : List Sec) (c : ℚ)
    (hx : x.relevance_score = c)
    (hl : l.Pairwise (fun a b => b.relevance_score ≤ a.relevance_score)) :
    (insertDesc x l).filter (fun s => decide (s.relevance_score = c)) =
      x :: l.filter (fun s => decide (s.relevance_score = c)) := by
  induction l with
  | nil => simp [insertDesc, hx]
  | cons y ys ih =>
    rcases List.pairwise_cons.mp hl with ⟨hy, hys⟩
    unfold insertDesc
    by_cases h : x.relevance_score < y.relevance_score
    · have hyne : y.relevance_score ≠ c := by
        intro hc; rw [hc, ← hx] at h; exact lt_irrefl _ h
      simp only [h, if_pos]
      simp [List.filter_cons, hyne, ih hys]
    · simp only [h, if_neg, not_false_iff, List.filter_cons]
      simp [hx]

theorem sortDesc_filter (l : List Sec) (c : ℚ) :
    (sortDesc l).filter (fun s => decide (s.relevance_score = c)) =
      l.filter (fun s => decide (s.relevance_score = c)) := by
  induction l with
  | nil => simp [sortDesc]
  | cons x xs ih =>
    show (insertDesc x (sortDesc xs)).filter _ = _
    by_cases hx : x.relevance_score = c
    · rw [insertDesc_filter_eq x (sortDesc xs) c hx (sortDesc_sorted xs), ih]
      simp [List.filter_cons, hx]
    · rw [insertDesc_filter_ne x (sortDesc xs) c hx, ih]
      simp [List.filter_cons, hx]

/-! ### Rank-assignment and scoring-loop facts -/

theorem assignRanksFrom_map_rank (l : List Sec) :
    ∀ k : Nat, (assignRanksFrom k l).map (fun s => s.importance_rank) =
      List.range' k l.length := by
  induction l with
  | nil => intro k; simp [assignRanksFrom]
  | cons s rest ih =>
    intro k
    simp only [assignRanksFrom, List.map_cons, List.length_cons, List.range'_succ]
    rw [ih (k + 1)]

theorem assignRanksFrom_filter_noRank (l : List Sec) (c : ℚ) :
    ∀ k : Nat, ((assignRanksFrom k l).filter
        (fun s => decide (s.relevance_score = c))).map noRank =
      (l.filter (fun s => decide (s.relevance_score = c))).map noRank := by
  induction l with
  | nil => intro k; simp [assignRanksFrom]
  | cons s rest ih =>
    intro k
    by_cases hs : s.relevance_score = c
    · have h1 : (decide (({ s with importance_rank := k } : Sec).relevance_score = c)) = true := by
        simp [hs]
      have h2 : (decide (s.relevance_score = c)) = true := by simp [hs]
      simp only [assignRanksFrom, List.filter_cons, h1, h2]
      rw [if_pos trivial, if_pos trivial]
      simp only [List.map_cons]
      rw [ih (k + 1)]
      rfl
    · have h1 : (decide (({ s with importance_rank := k } : Sec).relevance_score = c)) = false := by
        simp [hs]
      have h2 : (decide (s.relevance_score = c)) = false := by simp [hs]
      simp only [assignRanksFrom, List.filter_cons, h1, h2]
      rw [if_neg (by simp), if_neg (by simp)]
      exact ih (k + 1)

theorem mem_assignRanksFrom (l : List Sec) (z : Sec) :
    ∀ k : Nat, z ∈ assignRanksFrom k l →
      ∃ t ∈ l, ∃ j : Nat, z = { t with importance_rank := j } := by
  induction l with
  | nil => intro k h; simp [assignRanksFrom] at h
  | cons s rest ih =>
    intro k h
    rcases List.mem_cons.mp h with h | h
    · exact ⟨s, List.mem_cons_self s rest, k, h⟩
    · rcases ih (k + 1) h with ⟨t, ht, j, hj⟩
      exact ⟨t, List.mem_cons_of_mem s ht, j, hj⟩

theorem assignRanksFrom_pairwise (l : List Sec)
    (hl : l.Pairwise (fun a b => b.relevance_score ≤ a.relevance_score)) :
    ∀ k : Nat, (assignRanksFrom k l).Pairwise
      (fun a b => b.relevance_score ≤ a.relevance_score) := by
  induction l with
  | nil => intro k; simp [assignRanksFrom]
  | cons s rest ih =>
    rcases List.pairwise_cons.mp hl with ⟨hs, hrest⟩
    intro k
    refine List.pairwise_cons.mpr ⟨?_, ih hrest (k + 1)⟩
    intro z hz
    rcases mem_assignRanksFrom rest z (k + 1) hz with ⟨t, ht, j, hj⟩
    have : z.relevance_score = t.relevance_score := by rw [hj]
    rw [this]
    exact hs t ht

theorem assignRanksFrom_map_frame (l : List Sec) :
    ∀ k : Nat, (assignRanksFrom k l).map frameOf = l.map frameOf := by
  induction l with
  | nil => intro k; simp [assignRanksFrom]
  | cons s rest ih =>
    intro k
    simp only [assignRanksFrom, List.map_cons]
    rw [ih (k + 1)]
    rfl

theorem scoreAllGo_length (role job : List Char) (ss : List Sec) :
    ∀ tfs : List ℚ, (scoreAllGo role job tfs ss).length = ss.length := by
  induction ss with
  | nil => intro tfs; rfl
  | cons s rest ih => intro tfs; simp [scoreAllGo, ih]

theorem mem_scoreAllGo (role job : List Char) (ss : List Sec) (z : Sec) :
    ∀ tfs : List ℚ, z ∈ scoreAllGo role job tfs ss →
      ∃ t ∈ ss, ∃ q : ℚ, z = scoreSec role job q t ∧ (q ∈ tfs ∨ q = 0) := by
  induction ss with
  | nil => intro tfs h; simp [scoreAllGo] at h
  | cons s rest ih =>
    intro tfs h
    rcases List.mem_cons.mp h with h | h
    · refine ⟨s, List.mem_cons_self s rest, tfs.headD 0, h, ?_⟩
      cases tfs with
      | nil => exact Or.inr rfl
      | cons q qs => exact Or.inl (by simp)
    · rcases ih tfs.tail h with ⟨t, ht, q, hq, hmem⟩
      refine ⟨t, List.mem_cons_of_mem s ht, q, hq, ?_⟩
      rcases hmem with hmem | hmem
      · exact Or.inl (List.mem_of_mem_tail hmem)
      · exact Or.inr hmem

theorem scoreAllGo_map_frame (role job : List Char) (ss : List Sec) :
    ∀ tfs : List ℚ, (scoreAllGo role job tfs ss).map frameOf = ss.map frameOf := by
  induction ss with
  | nil => intro tfs; rfl
  | cons s rest ih =>
    intro tfs
    simp only [scoreAllGo, List.map_cons]
    rw [ih tfs.tail]
    rfl

/-! ### Claim C1 -/

/-- C1: for every non-empty input list, `rank_sections` returns the
sections ordered with non-increasing `relevance_score`; the sort is
stable (for every score value, the output sections having that score
are exactly the scored input sections with that score, in the pooled
input order); and the `importance_rank` values are exactly `1..N` in
output order, each used once. -/
theorem C1_rank_sections_order (role job : List Char) (tfs : List ℚ) (ss : List Sec)
    (h : ss ≠ []) :
    ((rank_sections role job tfs ss).Pairwise
        (fun a b => b.relevance_score ≤ a.relevance_score)) ∧
    (∀ c : ℚ,
        (((rank_sections role job tfs ss).filter
            (fun s => decide (s.relevance_score = c))).map noRank) =
          (((scoreAllGo role job tfs ss).filter
            (fun s => decide (s.relevance_score = c))).map noRank)) ∧
    ((rank_sections role job tfs ss).map (fun s => s.importance_rank) =
        List.range' 1 ss.length) := by
  have hne : ss.isEmpty = false := by
    cases ss with
    | nil => exact absurd rfl h
    | cons a l => rfl
  unfold rank_sections
  rw [hne]
  simp only [Bool.false_eq_true, if_false]
  refine ⟨assignRanksFrom_pairwise _ (sortDesc_sorted _) 1, ?_, ?_⟩
  · intro c
    rw [assignRanksFrom_filter_noRank, sortDesc_filter]
  · rw [assignRanksFrom_map_rank]
    congr 1
    exact ((sortDesc_perm _).length_eq).trans (scoreAllGo_length role job ss tfs)

/-- Witness for C1 at a concrete two-section input. -/
theorem C1_rank_sections_order_witness :
    ((rank_sections ("Food Contractor").data ("vegetarian dinner menu").data []
        [sampleSecA, sampleSecB]).map (fun s => s.importance_rank)) = [1, 2] := by
  have h := C1_rank_sections_order ("Food Contractor").data
    ("vegetarian dinner menu").data [] [sampleSecA, sampleSecB] (by simp)
  rw [h.2.2]
  rfl

/-! ### Claim C8 -/

/-- C8: `rank_sections` returns a permutation of exactly its input
records (the in-place Python mutation only updates `relevance_score`
and `importance_rank`), so the multiset of frame fields — document,
page_number, text, section_title, source — is preserved: no section is
added or dropped and no frame field changes. -/
theorem C8_rank_sections_frame_perm (role job : List Char) (tfs : List ℚ) (ss : List Sec) :
    ((rank_sections role job tfs ss).map frameOf).Perm (ss.map frameOf) := by
  unfold rank_sections
  by_cases h : ss.isEmpty = true
  · have hnil : ss = [] := by
      cases ss with
      | nil => rfl
      | cons a l => simp [List.isEmpty] at h
    subst hnil
    simp
  · rw [if_neg h]
    rw [assignRanksFrom_map_frame]
    have h1 := (sortDesc_perm (scoreAllGo role job tfs ss)).map frameOf
    have h2 : (scoreAllGo role job tfs ss).map frameOf = ss.map frameOf :=
      scoreAllGo_map_frame role job ss tfs
    rw [h2] at h1
    exact h1

/-! ### Claim C7 -/

/-- C7: when TF-IDF vectorization raises, the `np.zeros` default is the
similarity vector and `rank_sections` still returns normally (totality
of the model); every output section's `relevance_score` then equals
`0.6` times its keyword score plus the flat `0.1` title-quality bonus
where it applies. -/
theorem C7_tfidf_failure_keyword_only (role job : List Char) (ss : List Sec) (z : Sec)
    (hz : z ∈ rank_sections role job (List.replicate ss.length 0) ss) :
    z.relevance_score =
      calculate_enhanced_relevance_score role job z.text z.document * 0.6 +
        (if titleBonus z.section_title then 0.1 else 0) := by
  unfold rank_sections at hz
  by_cases h : ss.isEmpty = true
  · rw [if_pos h] at hz
    simp at hz
  · rw [if_neg h] at hz
    rcases mem_assignRanksFrom _ z 1 hz with ⟨t, ht, j, hj⟩
    have ht2 : t ∈ scoreAllGo role job (List.replicate ss.length 0) ss :=
      (sortDesc_perm _).mem_iff.mp ht
    rcases mem_scoreAllGo role job ss t _ ht2 with ⟨s, _, q, hq, hmem⟩
    have hq0 : q = 0 := by
      rcases hmem with hmem | hmem
      · exact List.eq_of_mem_replicate hmem
      · exact hmem
    subst hq0
    subst hq
    subst hj
    simp [scoreSec]

/-- Witness for C7: a concrete one-section run with the zero similarity
vector; the output score is `0.6` times the keyword score plus `0.1`. -/
theorem C7_tfidf_failure_keyword_only_witness :
    sampleRankedA.relevance_score =
      calculate_enhanced_relevance_score ("Food Contractor").data
          ("vegetarian dinner menu").data sampleRankedA.text
          sampleRankedA.document * 0.6 +
        (if titleBonus sampleRankedA.section_title then 0.1 else 0) :=
  C7_tfidf_failure_keyword_only ("Food Contractor").data
    ("vegetarian dinner menu").data [sampleSecA] _
    (by exact List.mem_singleton_self _)

/-! ### Claim C2 -/

/-- C2: `calculate_enhanced_relevance_score` returns exactly
`max(0, (0.3·persona_score + 0.5·job_score + 0.2·context_bonus + penalty)
/ max(word_count/100, 1))`; in particular the returned score is
non-negative for every input (including empty or punctuation-only text). -/
theorem C2_score_formula_and_nonneg (role job text doc : List Char) :
    calculate_enhanced_relevance_score role job text doc =
      max 0 (((persona_score role text : ℚ) * 0.3 + (job_score job text : ℚ) * 0.5 +
        (context_bonus role job text doc : ℚ) * 0.2 + (penalty_total job text doc : ℚ)) /
          max (((pySplitWs text).length : ℚ) / 100) 1) ∧
    0 ≤ calculate_enhanced_relevance_score role job text doc := by
  constructor
  · unfold calculate_enhanced_relevance_score pre_norm_score text_length_norm
    exact max_comm _ 0
  · unfold calculate_enhanced_relevance_score
    exact le_max_right _ 0

/-! ### Claim C3 -/

theorem assembleParas_length_le (L : Nat) :
    ∀ (ps : List (ℚ × List Char)) (acc : List Char),
      acc.length ≤ L + 2 → (assembleParas L ps acc).length ≤ L + 3 := by
  intro ps
  induction ps with
  | nil => intro acc h; unfold assembleParas; omega
  | cons hd rest ih =>
    rcases hd with ⟨q, p⟩
    intro acc h
    simp only [assembleParas]
    by_cases h1 : acc.length + p.length ≤ L
    · rw [if_pos h1]
      refine ih (acc ++ p ++ ['\n', '\n']) ?_
      simp only [List.length_append, List.length_cons, List.length_nil]
      omega
    · rw [if_neg h1]
      by_cases h2 : 100 < (L : Int) - (acc.length : Int)
      · rw [if_pos h2]
        have hpref : (p.take ((L : Int) - (acc.length : Int)).toNat).length ≤
            ((L : Int) - (acc.length : Int)).toNat := by
          rw [List.length_take]
          omega
        split
        · have htk : ((p.take ((L : Int) - (acc.length : Int)).toNat).take
              ((pyRFind '.' (p.take ((L : Int) - (acc.length : Int)).toNat)).toNat + 1)).length ≤
              (p.take ((L : Int) - (acc.length : Int)).toNat).length := by
            rw [List.length_take]
            omega
          simp only [List.length_append]
          omega
        · simp only [List.length_append, List.length_cons, List.length_nil]
          omega
      · rw [if_neg h2]
        omega

/-- C3: `extract_refined_subsection(text, L)` returns a string of length
at most `L + 3` (the fixed 3-character `"..."` overhead), for every
input text and every `L ≥ 1`. -/
theorem C3_refine_length_bound (role job t : List Char) (L : Nat) (h : 1 ≤ L) :
    (extract_refined_subsection role job t L).length ≤ L + 3 := by
  unfold extract_refined_subsection
  by_cases h1 : t.length ≤ L
  · rw [if_pos h1]
    have := pyStrip_length_le t
    omega
  · rw [if_neg h1]
    unfold refineFallback
    by_cases h2 : (pyStrip (assembleParas L (sortDescP (scoredParas role job t)) [])).isEmpty
    · rw [if_pos h2]
      simp only [List.length_append, List.length_take, List.length_cons,
        List.length_nil]
      omega
    · rw [if_neg h2]
      have hb := assembleParas_length_le L (sortDescP (scoredParas role job t)) []
        (by simp)
      have hs := pyStrip_length_le (assembleParas L (sortDescP (scoredParas role job t)) [])
      omega

/-- Witness for C3 at a concrete text and bound. -/
theorem C3_refine_length_bound_witness :
    1 ≤ 5 ∧ (extract_refined_subsection [] [] ("  tiny  ").data 5).length ≤ 5 + 3 :=
  ⟨by decide, C3_refine_length_bound [] [] (("  tiny  ").data) 5 (by decide)⟩

/-! ### Claim C6 -/

theorem mem_detectFrom (lines : List (List Char)) (s : DetSection) :
    ∀ (rest : List (List Char)) (i : Nat), rest = lines.drop i →
      (s ∈ detectFrom lines i rest ↔
        ∃ j, i ≤ j ∧ ∃ line, lines.get? j = some line ∧
          is_section_header (pyStrip line) = true ∧
          s = { title := pyStrip line,
                content := joinWith ['\n'] ((lines.drop j).take 10),
                line_number := j + 1 }) := by
  intro rest
  induction rest with
  | nil =>
    intro i hdrop
    simp only [detectFrom, List.not_mem_nil, false_iff]
    rintro ⟨j, hij, line, hget, _, _⟩
    have hlen : lines.length ≤ i := by
      have hlen2 := congrArg List.length hdrop
      simp only [List.length_nil, List.length_drop] at hlen2
      omega
    rw [List.get?_eq_none.mpr (by omega)] at hget
    exact absurd hget (by simp)
  | cons l rest ih =>
    intro i hdrop
    have hgetl : lines.get? i = some l := by
      have h1 : (lines.drop i).get? 0 = some l := by rw [← hdrop]; rfl
      rwa [List.get?_drop, Nat.add_zero] at h1
    have hdrop2 : rest = lines.drop (i + 1) := by
      have h1 : lines.drop (i + 1) = (lines.drop i).drop 1 := by
        rw [List.drop_drop]
      rw [h1, ← hdrop]
      rfl
    constructor
    · intro hmem
      simp only [detectFrom] at hmem
      by_cases hh : is_section_header (pyStrip l) = true
      · rw [if_pos hh] at hmem
        rcases List.mem_cons.mp hmem with hmem | hmem
        · exact ⟨i, le_refl i, l, hgetl, hh, hmem⟩
        · rcases (ih (i + 1) hdrop2).mp hmem with ⟨j, hij, line, hget, hhl, hs⟩
          exact ⟨j, by omega, line, hget, hhl, hs⟩
      · rw [if_neg hh] at hmem
        rcases (ih (i + 1) hdrop2).mp hmem with ⟨j, hij, line, hget, hhl, hs⟩
        exact ⟨j, by omega, line, hget, hhl, hs⟩
    · rintro ⟨j, hij, line, hget, hhl, hs⟩
      simp only [detectFrom]
      by_cases hji : j = i
      · subst hji
        have hline : line = l := by
          rw [hgetl] at hget
          exact (Option.some_inj.mp hget).symm
        subst hline
        rw [if_pos hhl, hs]
        exact List.mem_cons_self _ _
      · have hij2 : i + 1 ≤ j := by omega
        have hmem := (ih (i + 1) hdrop2).mpr ⟨j, hij2, line, hget, hhl, hs⟩
        by_cases hh : is_section_header (pyStrip l) = true
        · rw [if_pos hh]
          exact List.mem_cons_of_mem _ hmem
        · rw [if_neg hh]
          exact hmem

/-- C6 (amended): the candidate section produced for a header line at
index `j` has as its body the 10-line window `lines[j:j+10]` — the
header line plus the following NINE lines — joined by newlines (the
claim said ten following lines); and every emitted section arises this
way from some header line. -/
theorem C6_detect_sections_window (t : List Char) (s : DetSection) :
    s ∈ detect_sections t ↔
      ∃ j, ∃ line, (splitOnChar '\n' t).get? j = some line ∧
        is_section_header (pyStrip line) = true ∧
        s = { title := pyStrip line,
              content := joinWith ['\n'] (((splitOnChar '\n' t).drop j).take 10),
              line_number := j + 1 } := by
  unfold detect_sections
  rw [mem_detectFrom (splitOnChar '\n' t) s (splitOnChar '\n' t) 0 (by simp)]
  constructor
  · rintro ⟨j, _, rest⟩
    exact ⟨j, rest⟩
  · rintro ⟨j, rest⟩
    exact ⟨j, Nat.zero_le j, rest⟩

/-- C6 counterexample: on a 12-line page whose first line is the header
`"Introduction"`, the produced section body is the 10-line window
`lines[0:10]` (the header plus NINE following lines), which differs
from the header plus ten following lines that the claim describes. -/
theorem C6_counterexample :
    detect_sections c6page =
      [{ title := ("Introduction").data,
         content := ("Introduction\na\nb\nc\nd\ne\nf\ng\nh\ni").data,
         line_number := 1 }] ∧
    ("Introduction\na\nb\nc\nd\ne\nf\ng\nh\ni").data ≠
      joinWith ['\n'] ((splitOnChar '\n' c6page).take 11) := by
  exact ⟨by decide, by decide⟩

/-! ### Claim C5 -/

theorem detectFrom_eq_nil (lines : List (List Char)) :
    ∀ (rest : List (List Char)) (i : Nat),
      (∀ line ∈ rest, is_section_header (pyStrip line) = false) →
      detectFrom lines i rest = [] := by
  intro rest
  induction rest with
  | nil => intro i _; rfl
  | cons l rest ih =>
    intro i hno
    have hl := hno l (List.mem_cons_self l rest)
    simp only [detectFrom, hl]
    rw [if_neg (by simp)]
    exact ih (i + 1) (fun line hline => hno line (List.mem_cons_of_mem l hline))

theorem mem_extract_sections (pages : List (List Char)) (p : Page)
    (hp : p ∈ extract_text_with_sections pages) :
    p.sections = detect_sections p.text := by
  unfold extract_text_with_sections at hp
  rcases List.mem_map.mp hp with ⟨it, _, hit⟩
  rw [← hit]

theorem firstGoodLine_words (ls : List (List Char)) (t : List Char)
    (h : firstGoodLine ls = some t) : 2 ≤ (pySplitWs t).length := by
  induction ls with
  | nil => simp [firstGoodLine] at h
  | cons l rest ih =>
    simp only [firstGoodLine] at h
    split at h
    · split at h
      · rename_i hcond
        rw [Option.some_inj.mp h] at hcond
        exact hcond.1
      · exact ih h
    · exact ih h

theorem firstFoodMatch_ne_nil (t m : List Char) (h : firstFoodMatch t = some m) :
    m ≠ [] := by
  have h1 : (1 : Nat) ≤ minC gstFood1 := by decide
  have h2 : (1 : Nat) ≤ minC gstFood2 := by decide
  have h3 : (1 : Nat) ≤ minC gstFood3 := by decide
  unfold firstFoodMatch at h
  split at h
  · rename_i m1 heq
    rw [← Option.some_inj.mp h]
    exact reSearchFrom_ne_nil gstFood1 h1 t none m1 heq
  · split at h
    · rename_i m2 heq
      rw [← Option.some_inj.mp h]
      exact reSearchFrom_ne_nil gstFood2 h2 t none m2 heq
    · exact reSearchFrom_ne_nil gstFood3 h3 t none m h

theorem joinWith_cons (sep w : List Char) (rest : List (List Char)) :
    ∃ u, joinWith sep (w :: rest) = w ++ u := by
  cases rest with
  | nil => exact ⟨[], by simp [joinWith]⟩
  | cons r rs =>
    exact ⟨sep ++ joinWith sep (r :: rs), by simp [joinWith, List.append_assoc]⟩

theorem gstFallbackWords_ne_nil (t : List Char) : gstFallbackWords t ≠ [] := by
  unfold gstFallbackWords
  split
  · decide
  · rename_i hne
    rcases hws : ((pySplitWs t).filter (fun w => 2 < w.length)).take 6 with _ | ⟨w, rest⟩
    · rw [hws] at hne
      simp at hne
    · have hwmem : w ∈ ((pySplitWs t).filter (fun w => 2 < w.length)).take 6 := by
        rw [hws]; exact List.mem_cons_self _ _
      have hwlen : 2 < w.length := by
        have := List.mem_filter.mp (List.mem_of_mem_take hwmem)
        exact of_decide_eq_true this.2
      rcases joinWith_cons [' '] w rest with ⟨u, hu⟩
      rw [hws, hu]
      intro hnil
      rcases List.append_eq_nil.mp hnil with ⟨hleft, _⟩
      cases w with
      | nil => simp at hwlen
      | cons c cs => simp at hleft

theorem generate_section_title_ne_nil (t : List Char) :
    generate_section_title t ≠ [] := by
  unfold generate_section_title
  split
  · rename_i title hfg
    have h2 := firstGoodLine_words _ _ hfg
    intro hnil
    rw [hnil] at h2
    simp [pySplitWs, pySplitWsAux] at h2
  · split
    · rename_i m hfm
      have hm : m ≠ [] := firstFoodMatch_ne_nil t m hfm
      cases m with
      | nil => exact absurd rfl hm
      | cons c cs => simp
    · split
      · rename_i m hfind
        have hok := List.find?_some hfind
        intro hnil
        rw [hnil] at hok
        revert hok
        decide
      · exact gstFallbackWords_ne_nil t

/-- C5 (amended): every page kept by `extract_text_with_sections`
(i.e. non-blank) that lies within the first `max_pages_per_doc` pages
and none of whose lines is classified as a header contributes exactly
one section to `get_page_sections_for_ranking` — with
`source = "page_content"` and a non-empty generated title.  (The claim
as stated fails for blank pages and pages beyond the cap, which
contribute no section at all.)  The third conjunct records that
`get_page_sections_for_ranking` is exactly the per-page contributions
`sectionsForPage` concatenated in page order. -/
theorem C5_page_fallback (pages : List (List Char)) (mp : Nat) (p : Page)
    (hp : p ∈ (extract_text_with_sections pages).take mp)
    (hno : ∀ line ∈ splitOnChar '\n' p.text, is_section_header (pyStrip line) = false) :
    sectionsForPage p =
      [{ page_number := p.page_number, text := p.text,
         section_title := generate_section_title p.text,
         source := ("page_content").data }] ∧
    generate_section_title p.text ≠ [] ∧
    get_page_sections_for_ranking pages mp =
      (((extract_text_with_sections pages).take mp).map sectionsForPage).flatten := by
  have hsec : p.sections = detect_sections p.text :=
    mem_extract_sections pages p (List.mem_of_mem_take hp)
  have hnil : p.sections = [] := by
    rw [hsec]
    unfold detect_sections
    exact detectFrom_eq_nil _ _ 0 hno
  refine ⟨?_, generate_section_title_ne_nil p.text, rfl⟩
  unfold sectionsForPage
  rw [hnil]
  simp

/-- C5 counterexample: a whitespace-only page has no header lines, yet
`get_page_sections_for_ranking` emits no section at all for it (blank
pages are dropped before section detection), refuting "exactly one
section for that page". -/
theorem C5_counterexample :
    splitOnChar '\n' ((" ").data) = [(" ").data] ∧
    is_section_header (pyStrip ((" ").data)) = false ∧
    get_page_sections_for_ranking [(" ").data] 5 = [] := by
  exact ⟨by decide, by decide, by decide⟩

/-- Witness for C5 at a concrete one-page document. -/
theorem C5_page_fallback_witness :
    sectionsForPage c5pageRec =
      [{ page_number := c5pageRec.page_number, text := c5pageRec.text,
         section_title := generate_section_title c5pageRec.text,
         source := ("page_content").data }] ∧
    generate_section_title c5pageRec.text ≠ [] :=
  ⟨(C5_page_fallback [c5text] 5 c5pageRec (by decide) (by decide)).1,
   (C5_page_fallback [c5text] 5 c5pageRec (by decide) (by decide)).2.1⟩

/-! ### Keyword-score facts -/

theorem wordRunsAux_ne_nil (s : List Char) :
    ∀ (acc : List Char), ∀ w ∈ wordRunsAux s acc, w ≠ [] := by
  induction s with
  | nil =>
    intro acc w hw
    unfold wordRunsAux at hw
    split at hw
    · simp at hw
    · rename_i hacc
      rw [List.mem_singleton.mp hw]
      intro hnil
      rw [List.reverse_eq_nil_iff.mp hnil] at hacc
      simp at hacc
  | cons c t ih =>
    intro acc w hw
    unfold wordRunsAux at hw
    split at hw
    · exact ih (c :: acc) w hw
    · split at hw
      · exact ih [] w hw
      · rename_i hword hacc
        rcases List.mem_cons.mp hw with hw | hw
        · rw [hw]
          intro hnil
          rw [List.reverse_eq_nil_iff.mp hnil] at hacc
          simp at hacc
        · exact ih [] w hw

theorem wordRuns_ne_nil (s : List Char) : ∀ w ∈ wordRuns s, w ≠ [] :=
  wordRunsAux_ne_nil s []

theorem quotedTermsGo_ne_nil :
    ∀ (f : Nat) (s : List Char), ∀ w ∈ quotedTermsGo f s, w ≠ [] := by
  intro f
  induction f with
  | zero => intro s w hw; simp [quotedTermsGo] at hw
  | succ f ih =>
    intro s w hw
    cases s with
    | nil => simp [quotedTermsGo] at hw
    | cons c t =>
      unfold quotedTermsGo at hw
      split at hw
      · split at hw
        · simp at hw
        · split at hw
          · exact ih t w hw
          · rename_i hrun
            rcases List.mem_cons.mp hw with hw | hw
            · rw [hw]
              intro hnil
              rw [hnil] at hrun
              simp at hrun
            · exact ih _ w hw
      · exact ih t w hw

theorem jobHigh_ne_nil (job : List Char) : ∀ kw ∈ jobHigh job, kw ≠ [] := by
  intro kw hkw
  rcases List.mem_append.mp (List.mem_dedup.mp hkw) with h | h
  · exact wordRuns_ne_nil _ kw (List.mem_filter.mp h).1
  · exact quotedTermsGo_ne_nil _ _ kw h

theorem jobMed_ne_nil (job : List Char) : ∀ kw ∈ jobMed job, kw ≠ [] := by
  intro kw hkw
  have h := List.mem_filter.mp (List.mem_dedup.mp hkw)
  have hlen : 4 < kw.length := of_decide_eq_true h.2
  intro hnil
  rw [hnil] at hlen
  simp at hlen

theorem cntN_nil (kws : List (List Char)) (h : ∀ kw ∈ kws, kw ≠ []) :
    cntN kws [] = 0 := by
  unfold cntN
  rw [List.length_eq_zero]
  rw [List.filter_eq_nil]
  intro kw hkw
  rw [containsSub_nil kw (h kw hkw)]
  simp

theorem persona_tiers_ne_nil (role : List Char) :
    (∀ kw ∈ personaHigh role, kw ≠ []) ∧ (∀ kw ∈ personaMed role, kw ≠ []) ∧
      (∀ kw ∈ personaLow role, kw ≠ []) := by
  unfold personaHigh personaMed personaLow personaTable
  split_ifs
  all_goals exact ⟨by decide, by decide, by decide⟩

theorem persona_score_nil (role : List Char) : persona_score role [] = 0 := by
  unfold persona_score
  rcases persona_tiers_ne_nil role with ⟨hH, hM, hL⟩
  rw [show pyLower [] = [] from rfl]
  rw [cntN_nil _ hH, cntN_nil _ hM, cntN_nil _ hL]

theorem job_score_nil (job : List Char) : job_score job [] = 0 := by
  unfold job_score
  rw [show pyLower [] = [] from rfl]
  rw [cntN_nil _ (jobHigh_ne_nil job), cntN_nil _ (jobMed_ne_nil job)]

theorem b2n_zero (b : Bool) : b2n b 0 = 0 := by
  cases b <;> rfl

theorem text_length_norm_of_small (t : List Char)
    (h : (pySplitWs t).length ≤ 100) : text_length_norm t = 1 := by
  unfold text_length_norm
  rw [max_eq_right]
  rw [div_le_one (by norm_num)]
  exact_mod_cast h

theorem cntN_congr (kws : List (List Char)) (t1 t2 : List Char)
    (h : ∀ kw ∈ kws, containsSub kw t1 = containsSub kw t2) :
    cntN kws t1 = cntN kws t2 := by
  unfold cntN
  rw [List.filter_congr h]

/-! ### Claim C10 -/

/-- C10 counterexample: with job task `"lunch dinner"` and document
label `"Lunch Dinner"` — both containing `"dinner"`, the label free of
`"breakfast"` — the empty-text score is `2.0`, not `1.0`: the `"lunch"`
meal bonus fires as well, refuting the claimed equality. -/
theorem C10_counterexample :
    containsSub ("dinner").data (pyLower (("lunch dinner").data)) = true ∧
    containsSub ("dinner").data (pyLower (("Lunch Dinner").data)) = true ∧
    containsSub ("breakfast").data (pyLower (("Lunch Dinner").data)) = false ∧
    calculate_enhanced_relevance_score [] (("lunch dinner").data) []
      (("Lunch Dinner").data) = 2 := by
  refine ⟨by decide, by decide, by decide, ?_⟩
  unfold calculate_enhanced_relevance_score pre_norm_score
  rw [show persona_score [] [] = 0 from by decide,
      show job_score (("lunch dinner").data) [] = 0 from by decide,
      show context_bonus [] (("lunch dinner").data) [] (("Lunch Dinner").data) = 10
        from by decide,
      show penalty_total (("lunch dinner").data) [] (("Lunch Dinner").data) = 0
        from by decide,
      text_length_norm_of_small [] (by decide)]
  rw [max_eq_left (by push_cast; norm_num)]
  push_cast
  norm_num

/-- C10 (amended): if the job task and the document label both contain
`"dinner"`, the label does not contain `"breakfast"`, and not both the
job and the label contain `"lunch"`, then the score of the empty text
is exactly `1.0` — a positive score from the document label alone.
(The claim as stated omits the lunch condition, under which the score
is `2.0`.) -/
theorem C10_empty_text_label_score (role job label : List Char)
    (h1 : containsSub ("dinner").data (pyLower job) = true)
    (h2 : containsSub ("dinner").data (pyLower label) = true)
    (h3 : containsSub ("breakfast").data (pyLower label) = false)
    (h4 : ¬(containsSub ("lunch").data (pyLower job) = true ∧
            containsSub ("lunch").data (pyLower label) = true)) :
    calculate_enhanced_relevance_score role job [] label = 1 := by
  have hps : persona_score role [] = 0 := persona_score_nil role
  have hjs : job_score job [] = 0 := job_score_nil job
  have hlunch : (containsSub ("lunch").data (pyLower job) &&
      containsSub ("lunch").data (pyLower label)) = false := by
    cases hcj : containsSub ("lunch").data (pyLower job) with
    | false => rfl
    | true =>
      cases hcl : containsSub ("lunch").data (pyLower label) with
      | false => rfl
      | true => exact absurd ⟨hcj, hcl⟩ h4
  have hcb : context_bonus role job [] label = 5 := by
    unfold context_bonus meal_bonus academic_bonus business_bonus travel_bonus
      veg_bonus gf_bonus buffet_bonus
    rw [h1, h2, h3, hlunch]
    rw [show cntN academicTerms (pyLower []) * 2 = 0 from by decide,
        show cntN businessTerms (pyLower []) * 2 = 0 from by decide,
        show cntN travelTerms (pyLower []) * 2 = 0 from by decide,
        show anyIn vegetarianTerms (pyLower []) = false from by decide,
        show anyIn glutenFreeTerms (pyLower []) = false from by decide,
        show anyIn buffetTerms (pyLower []) = false from by decide]
    simp [b2n]
  have hpen : penalty_total job [] label = 0 := by
    unfold penalty_total veg_penalty gf_penalty mismatch_penalty dessert_penalty
    rw [h3]
    rw [show anyIn meatTerms (pyLower []) = false from by decide,
        show anyIn glutenTerms (pyLower []) = false from by decide,
        show containsSub ("dessert").data (pyLower []) = false from by decide]
    simp [b2z]
  unfold calculate_enhanced_relevance_score pre_norm_score
  rw [hps, hjs, hcb, hpen, text_length_norm_of_small [] (by decide)]
  rw [max_eq_left (by push_cast; norm_num)]
  push_cast
  norm_num

/-- Witness for the amended C10 at a concrete role, job and label. -/
theorem C10_empty_text_label_score_witness :
    calculate_enhanced_relevance_score ("x").data ("dinner").data []
      ("dinner").data = 1 :=
  C10_empty_text_label_score ("x").data ("dinner").data ("dinner").data
    (by decide) (by decide) (by decide) (by decide)

/-! ### Claim C9 -/

/-- C9 counterexample: with job task `use "abc abcde" now` (whose high
keyword is the quoted term `"abc abcde"` and whose medium keyword is
`"abcde"`), appending one more copy of the already-present keyword
`"abcde"` to the text creates a new occurrence of the quoted keyword
across the junction, raising the pre-normalization job keyword score
from 4 to 29 — so repeating an already-present keyword CAN increase the
score. -/
theorem C9_counterexample :
    containsSub ("abcde").data (pyLower (("abcde abc").data)) = true ∧
    job_score (("use \"abc abcde\" now").data) (("abcde abc").data) = 4 ∧
    job_score (("use \"abc abcde\" now").data)
      ((("abcde abc").data) ++ (" abcde").data) = 29 ∧
    pre_norm_score [] (("use \"abc abcde\" now").data) (("abcde abc").data) [] <
      pre_norm_score [] (("use \"abc abcde\" now").data)
        ((("abcde abc").data) ++ (" abcde").data) [] := by
  refine ⟨by decide, by decide, by decide, ?_⟩
  unfold pre_norm_score
  rw [show persona_score [] (("abcde abc").data) = 0 from by decide,
      show persona_score [] ((("abcde abc").data) ++ (" abcde").data) = 0 from by decide,
      show job_score (("use \"abc abcde\" now").data) (("abcde abc").data) = 4
        from by decide,
      show job_score (("use \"abc abcde\" now").data)
        ((("abcde abc").data) ++ (" abcde").data) = 29 from by decide,
      show context_bonus [] (("use \"abc abcde\" now").data) (("abcde abc").data) [] = 0
        from by decide,
      show context_bonus [] (("use \"abc abcde\" now").data)
        ((("abcde abc").data) ++ (" abcde").data) [] = 0 from by decide,
      show penalty_total (("use \"abc abcde\" now").data) (("abcde abc").data) [] = 0
        from by decide,
      show penalty_total (("use \"abc abcde\" now").data)
        ((("abcde abc").data) ++ (" abcde").data) [] = 0 from by decide]
  push_cast
  norm_num

/-- C9 (amended): each persona or job keyword contributes at most once
per call: the pre-normalization persona and job keyword scores depend
only on which keywords occur as substrings of the lowercased text, so
any change to the text — including repeating a keyword — that preserves
every keyword's substring-occurrence status leaves both scores
unchanged.  (Repetition that creates a new occurrence of ANOTHER
keyword, e.g. of a quoted multi-word keyword across the junction, can
still raise the score, as the counterexample shows.) -/
theorem C9_keyword_membership_score (role job t1 t2 : List Char)
    (hp : ∀ kw ∈ personaHigh role ++ personaMed role ++ personaLow role,
        containsSub kw (pyLower t1) = containsSub kw (pyLower t2))
    (hj : ∀ kw ∈ jobHigh job ++ jobMed job,
        containsSub kw (pyLower t1) = containsSub kw (pyLower t2)) :
    persona_score role t1 = persona_score role t2 ∧
      job_score job t1 = job_score job t2 := by
  constructor
  · unfold persona_score
    rw [cntN_congr (personaHigh role) _ _
        (fun kw hkw => hp kw (List.mem_append_left _ (List.mem_append_left _ hkw))),
      cntN_congr (personaMed role) _ _
        (fun kw hkw => hp kw (List.mem_append_left _ (List.mem_append_right _ hkw))),
      cntN_congr (personaLow role) _ _
        (fun kw hkw => hp kw (List.mem_append_right _ hkw))]
  · unfold job_score
    rw [cntN_congr (jobHigh job) _ _
        (fun kw hkw => hj kw (List.mem_append_left _ hkw)),
      cntN_congr (jobMed job) _ _
        (fun kw hkw => hj kw (List.mem_append_right _ hkw))]

/-- Witness for the amended C9: duplicating the whole text `"abcde"`
(the only job keyword) preserves every keyword's occurrence status, and
the scores agree. -/
theorem C9_keyword_membership_score_witness :
    persona_score ("x").data ("abcde").data =
        persona_score ("x").data ("abcde abcde").data ∧
      job_score ("abcde").data ("abcde").data =
        job_score ("abcde").data ("abcde abcde").data :=
  C9_keyword_membership_score ("x").data ("abcde").data ("abcde").data
    ("abcde abcde").data (by decide) (by decide)

/-! ### Claim C4 -/

/-- C4 counterexample: with job task `"vegetarian dinner menu"` and the
otherwise-identical texts `"tofu"` and `"chicken"`, the tofu text's
pre-normalization composite score exceeds the chicken text's by exactly
`0.2·4 + 8 = 8.8` scaled units, which is less than the claimed 12: the
`+4` vegetarian bonus enters the composite through the `0.2` context
weight, while the `−8` penalty enters unweighted. -/
theorem C4_counterexample :
    (pre_norm_score (("Food Contractor").data) (("vegetarian dinner menu").data)
        (("tofu").data) [] -
      pre_norm_score (("Food Contractor").data) (("vegetarian dinner menu").data)
        (("chicken").data) [] = 44/5) ∧
    ¬(12 ≤ pre_norm_score (("Food Contractor").data)
        (("vegetarian dinner menu").data) (("tofu").data) [] -
      pre_norm_score (("Food Contractor").data) (("vegetarian dinner menu").data)
        (("chicken").data) []) := by
  have hsimp : pre_norm_score (("Food Contractor").data)
        (("vegetarian dinner menu").data) (("tofu").data) [] -
      pre_norm_score (("Food Contractor").data) (("vegetarian dinner menu").data)
        (("chicken").data) [] = 44/5 := by
    unfold pre_norm_score
    rw [show persona_score (("Food Contractor").data) (("tofu").data) = 0 from by decide,
        show persona_score (("Food Contractor").data) (("chicken").data) = 0 from by decide,
        show job_score (("vegetarian dinner menu").data) (("tofu").data) = 0 from by decide,
        show job_score (("vegetarian dinner menu").data) (("chicken").data) = 0 from by decide,
        show context_bonus (("Food Contractor").data) (("vegetarian dinner menu").data)
          (("tofu").data) [] = 4 from by decide,
        show context_bonus (("Food Contractor").data) (("vegetarian dinner menu").data)
          (("chicken").data) [] = 0 from by decide,
        show penalty_total (("vegetarian dinner menu").data) (("tofu").data) [] = 0
          from by decide,
        show penalty_total (("vegetarian dinner menu").data) (("chicken").data) [] = -8
          from by decide]
    push_cast
    norm_num
  refine ⟨hsimp, ?_⟩
  rw [hsimp]
  norm_num

/-- C4 (amended): with a job task mentioning `"vegetarian"` and two
texts identical in every other scoring respect — the meat text contains
a meat indicator and no vegetarian indicator, the tofu text a
vegetarian indicator and no meat indicator — the tofu text's
pre-normalization composite score exceeds the meat text's by exactly
`0.2·4 − (−8) = 8.8` scaled units (the claim's `4 − (−8) = 12` ignores
the `0.2` weight applied to the context bonus). -/
theorem C4_dietary_delta (role job doc tMeat tVeg : List Char)
    (hjob : containsSub ("vegetarian").data (pyLower job) = true)
    (hMeat1 : anyIn meatTerms (pyLower tMeat) = true)
    (hMeat2 : anyIn vegetarianTerms (pyLower tMeat) = false)
    (hVeg1 : anyIn vegetarianTerms (pyLower tVeg) = true)
    (hVeg2 : anyIn meatTerms (pyLower tVeg) = false)
    (hp : persona_score role tMeat = persona_score role tVeg)
    (hj : job_score job tMeat = job_score job tVeg)
    (hacad : academic_bonus role tMeat = academic_bonus role tVeg)
    (hbus : business_bonus role tMeat = business_bonus role tVeg)
    (htrav : travel_bonus role tMeat = travel_bonus role tVeg)
    (hgfb : gf_bonus job tMeat = gf_bonus job tVeg)
    (hbuf : buffet_bonus job tMeat = buffet_bonus job tVeg)
    (hgfp : gf_penalty job tMeat = gf_penalty job tVeg)
    (hdes : dessert_penalty job tMeat = dessert_penalty job tVeg) :
    pre_norm_score role job tVeg doc - pre_norm_score role job tMeat doc = 44/5 := by
  unfold pre_norm_score context_bonus penalty_total
  rw [hp, hj, hacad, hbus, htrav, hgfb, hbuf, hgfp, hdes]
  unfold veg_bonus veg_penalty
  rw [hjob, hMeat1, hMeat2, hVeg1, hVeg2]
  simp only [Bool.and_true, Bool.and_false, b2n, b2z, if_true, if_false]
  push_cast
  ring

/-- Witness for the amended C4 at the concrete chicken/tofu pair. -/
theorem C4_dietary_delta_witness :
    pre_norm_score (("Food Contractor").data) (("vegetarian dinner menu").data)
        (("tofu").data) [] -
      pre_norm_score (("Food Contractor").data) (("vegetarian dinner menu").data)
        (("chicken").data) [] = 44/5 :=
  C4_dietary_delta (("Food Contractor").data) (("vegetarian dinner menu").data) []
    (("chicken").data) (("tofu").data) (by decide) (by decide) (by decide)
    (by decide) (by decide) (by decide) (by decide) (by decide) (by decide)
    (by decide) (by decide) (by decide) (by decide) (by decide)
